import Mathlib

/-
  Verification development for `download_video.py` (brownstone video downloader).

  Shallow embedding conventions:
  * Pure string helpers (`str.lower()`, Python's substring `in` test) are
    translated character-wise over `List Char`.
  * The HTML parsing layer (BeautifulSoup) and the regular-expression scans are
    abstracted into a structured document value `Html`: it records, in document
    order, the `<video>` elements (with their `src` attribute and nested
    `<source>` `src` attributes), the `<iframe>` elements (with `src` and
    `data-src` attributes), and, for each of the regex patterns of methods 3-6,
    the list of `re.findall` matches in text order.
  * Python `set(...)` iteration is modelled by an oracle
    `ps : List String → List String`: within one CPython process, iterating a
    set built from a given list is a fixed pure function of that list (hashes
    are fixed per process).  All theorems hold for an arbitrary oracle.
  * `urllib.parse.urljoin` is abstracted as an oracle `String → String → String`
    (no claim depends on its arithmetic).
  * Effectful collaborators (yt-dlp subprocess, `requests.get`, the streamed
    response body) are oracles; observable behaviour (attempts made, messages
    printed, files written) is recorded in explicit traces / a filesystem map.
-/

namespace DownloadVideo

/-- Models Python `str.lower()`, character-wise. -/
def lowerStr (s : String) : String := String.mk (s.data.map Char.toLower)

/-- Boolean prefix test on character lists. -/
def isPrefixB : List Char → List Char → Bool
  | [], _ => true
  | _ :: _, [] => false
  | a :: as, b :: bs => a == b && isPrefixB as bs

/-- Boolean substring test on character lists. -/
def hasSubstr (sub : List Char) : List Char → Bool
  | [] => sub.isEmpty
  | c :: t => isPrefixB sub (c :: t) || hasSubstr sub t

/-- Models Python `sub in s` (substring containment). -/
def containsStr (s sub : String) : Bool := hasSubstr sub.data s.data

/-- `video_extensions` list from `is_direct_video_url` (lines 46). -/
def video_extensions : List String :=
  [".mp4", ".webm", ".m3u8", ".mov", ".avi", ".mkv", ".flv"]

/-- `video_services` list from `is_direct_video_url` (lines 47-50). -/
def video_services : List String :=
  ["wistia.com", "wistia.net", "vimeo.com", "youtube.com", "youtu.be",
   "vidyard.com", "brightcove", "jwplatform", "loom.com", "sproutvideo"]

/-- `is_direct_video_url` (lines 44-57): true when the lowercased URL contains
a known video file extension or a known video-service fragment. -/
def is_direct_video_url (url : String) : Bool :=
  let url_lower := lowerStr url
  video_extensions.any (fun e => containsStr url_lower e)
    || video_services.any (fun s => containsStr url_lower s)

/-! ## Page fetcher (`fetch_page`, lines 60-75) -/

/-- An HTTP request as issued by the embedded code: URL, headers, timeout in
seconds. -/
structure Request where
  url : String
  headers : List (String × String)
  timeoutSeconds : Nat
deriving DecidableEq

/-- Outcome of one HTTP GET: a network-level error (exception from
`requests.get`) or a response with a status code and a text body. -/
inductive HttpOutcome where
  | netError : HttpOutcome
  | response (status : Nat) (body : String) : HttpOutcome

/-- The fixed browser-like headers of `fetch_page` (lines 64-71). -/
def fetch_headers : List (String × String) :=
  [("User-Agent",
    "Mozilla/5.0 (Windows NT 10.0; Win64; x64) AppleWebKit/537.36 (KHTML, like Gecko) Chrome/120.0.0.0 Safari/537.36"),
   ("Accept", "text/html,application/xhtml+xml,application/xml;q=0.9,image/webp,*/*;q=0.8"),
   ("Accept-Language", "en-US,en;q=0.5")]

/-- `fetch_page` (lines 60-75): one GET with the fixed headers and a
30-second timeout, then `response.raise_for_status()` — which raises exactly
for status codes with `400 <= status < 600` — then `response.text`.
Returns the result together with the list of requests issued (always exactly
one; there is no retry loop in the source). -/
def fetch_page (http : Request → HttpOutcome) (url : String) :
    Except Unit String × List Request :=
  let req : Request := ⟨url, fetch_headers, 30⟩
  match http req with
  | HttpOutcome.netError => (Except.error (), [req])
  | HttpOutcome.response s body =>
      (if 400 ≤ s ∧ s < 600 then Except.error () else Except.ok body, [req])

/-! ## Extractor (`extract_video_urls`, lines 78-147) -/

/-- Source-kind tag of a candidate (spec §3). -/
inductive SourceType where
  | video_element
  | video_source
  | iframe_embed
  | wistia
  | vimeo
  | youtube
  | direct_file
deriving DecidableEq

/-- A candidate reference: (source-kind tag, URL). -/
abbrev Cand := SourceType × String

/-- A parsed `<video>` element: its `src` attribute (if present) and the
`src` attributes of its nested `<source>` elements, in document order. -/
structure VideoElem where
  src : Option String
  sources : List (Option String)

/-- A parsed `<iframe>` element: `src` and `data-src` attributes. -/
structure IframeElem where
  src : Option String
  dataSrc : Option String

/-- The abstracted document handed to the extractor: parse results of the
BeautifulSoup layer plus, per regex pattern of methods 3-6, the `re.findall`
match lists in text order. -/
structure Html where
  videos : List VideoElem
  iframes : List IframeElem
  wistia1 : List String
  wistia2 : List String
  wistia3 : List String
  vimeo1 : List String
  vimeo2 : List String
  youtube1 : List String
  youtube2 : List String
  youtube3 : List String
  fileUrls : List String

/-- Python truthiness filter on an optional attribute value: `if src:` keeps a
present, non-empty string. -/
def truthyList : Option String → List String
  | some s => if s = "" then [] else [s]
  | none => []

/-- Python `a or b` on optional strings: `a` when truthy, otherwise `b`. -/
def pyOr : Option String → Option String → Option String
  | some s, b => if s = "" then b else some s
  | none, b => b

/-- Method 1 inner loop (lines 90-93): `<source>` children of a video. -/
def sources_candidates (resolve : String → String) : List (Option String) → List Cand
  | [] => []
  | o :: rest =>
      (truthyList o).map (fun s => (SourceType.video_source, resolve s))
        ++ sources_candidates resolve rest

/-- Method 1 (lines 86-93): per `<video>` element, its `src` (resolved against
the base URL) then its nested `<source>` `src`s. -/
def video_candidates (resolve : String → String) : List VideoElem → List Cand
  | [] => []
  | v :: rest =>
      (truthyList v.src).map (fun s => (SourceType.video_element, resolve s))
        ++ sources_candidates resolve v.sources
        ++ video_candidates resolve rest

/-- `video_hosts` list of method 2 (line 99), via Python `any(host in src.lower())`. -/
def isVideoHost (s : String) : Bool :=
  (["vimeo", "youtube", "wistia", "vidyard", "brightcove", "loom"] : List String).any
    (fun h => containsStr (lowerStr s) h)

/-- Method 2 (lines 96-101): `src = iframe.get("src") or iframe.get("data-src")`;
`if src:` then the video-host check; no resolution against the base URL. -/
def iframe_candidates : List IframeElem → List Cand
  | [] => []
  | ifr :: rest =>
      (match pyOr ifr.src ifr.dataSrc with
       | some s =>
           if s = "" then []
           else if isVideoHost s then [(SourceType.iframe_embed, s)] else []
       | none => [])
        ++ iframe_candidates rest

/-- Synthesized Wistia URL (line 111). -/
def wistia_url (i : String) : String := "https://fast.wistia.net/embed/iframe/" ++ i

/-- Method 3 (lines 103-111): three patterns, each iterated over
`set(re.findall(...))` (oracle `ps`). -/
def wistia_candidates (ps : List String → List String) (d : Html) : List Cand :=
  (ps d.wistia1).map (fun i => (SourceType.wistia, wistia_url i))
    ++ (ps d.wistia2).map (fun i => (SourceType.wistia, wistia_url i))
    ++ (ps d.wistia3).map (fun i => (SourceType.wistia, wistia_url i))

/-- Synthesized Vimeo URL (line 117). -/
def vimeo_url (i : String) : String := "https://player.vimeo.com/video/" ++ i

/-- Method 4 (lines 113-117). -/
def vimeo_candidates (ps : List String → List String) (d : Html) : List Cand :=
  (ps d.vimeo1).map (fun i => (SourceType.vimeo, vimeo_url i))
    ++ (ps d.vimeo2).map (fun i => (SourceType.vimeo, vimeo_url i))

/-- Synthesized YouTube URL (line 127). -/
def youtube_url (i : String) : String := "https://www.youtube.com/watch?v=" ++ i

/-- Method 5 (lines 119-127). -/
def youtube_candidates (ps : List String → List String) (d : Html) : List Cand :=
  (ps d.youtube1).map (fun i => (SourceType.youtube, youtube_url i))
    ++ (ps d.youtube2).map (fun i => (SourceType.youtube, youtube_url i))
    ++ (ps d.youtube3).map (fun i => (SourceType.youtube, youtube_url i))

/-- Line 136: `url.replace("\\u002F", "/").replace("\\/", "/")`. -/
def normalize_slashes (u : String) : String :=
  (u.replace "\\u002F" "/").replace "\\/" "/"

/-- Method 6 (lines 129-137). -/
def direct_file_candidates (ps : List String → List String) (d : Html) : List Cand :=
  (ps d.fileUrls).map (fun u => (SourceType.direct_file, normalize_slashes u))

/-- The combined candidate list before deduplication (lines 83-137), in the
source's fixed method order. -/
def rawCandidates (ps : List String → List String) (resolve : String → String)
    (d : Html) : List Cand :=
  video_candidates resolve d.videos
    ++ (iframe_candidates d.iframes
    ++ (wistia_candidates ps d
    ++ (vimeo_candidates ps d
    ++ (youtube_candidates ps d
    ++ direct_file_candidates ps d))))

/-- Deduplication pass (lines 139-145): a `seen` set of URLs, first occurrence
kept with its tag, order preserved. -/
def dedupByUrl (seen : List String) : List Cand → List Cand
  | [] => []
  | (t, u) :: rest =>
      if u ∈ seen then dedupByUrl seen rest
      else (t, u) :: dedupByUrl (u :: seen) rest

/-- `extract_video_urls` (lines 78-147): the six methods in order, then
deduplication by URL. -/
def extract_video_urls (ps : List String → List String) (resolve : String → String)
    (d : Html) : List Cand :=
  dedupByUrl [] (rawCandidates ps resolve d)

/-! ## Download strategies and orchestrator (`download_video`, lines 266-333) -/

/-- The two download strategies of the per-candidate loop. -/
inductive Strategy where
  | ytdlp
  | direct
deriving DecidableEq

/-- Line 324: `".mp4" in vid_url.lower() or ".webm" in vid_url.lower()`. -/
def hasDirectExt (u : String) : Bool :=
  containsStr (lowerStr u) ".mp4" || containsStr (lowerStr u) ".webm"

/-- Whether some strategy succeeds for a candidate in the loop of lines
315-329: yt-dlp, or (when the URL has a raw extension) the direct download. -/
def candSucceeds (yt dd : String → Bool) (c : Cand) : Bool :=
  yt c.2 || (hasDirectExt c.2 && dd c.2)

/-- The per-candidate loop (lines 317-329): for each candidate try yt-dlp;
on failure, when the URL contains `.mp4`/`.webm`, try the direct download;
return on the first success.  The second component is the trace of strategy
attempts actually made, in order. -/
def tryCandidates (yt dd : String → Bool) : List Cand → Bool × List (Strategy × String)
  | [] => (false, [])
  | (_, u) :: rest =>
      if yt u then (true, [(Strategy.ytdlp, u)])
      else if hasDirectExt u then
        if dd u then (true, [(Strategy.ytdlp, u), (Strategy.direct, u)])
        else
          ((tryCandidates yt dd rest).1,
            (Strategy.ytdlp, u) :: (Strategy.direct, u) :: (tryCandidates yt dd rest).2)
      else
        ((tryCandidates yt dd rest).1,
          (Strategy.ytdlp, u) :: (tryCandidates yt dd rest).2)

/-- Observable events of a `download_video` run, in order. -/
inductive Event where
  | ytdlpAttempt (url : String)
  | directAttempt (url : String)
  | fetchAttempt (url : String)
  | extractCall
  | failedDiagnostic
  | manualInstructions
deriving DecidableEq

/-- Maps a loop-trace entry to the corresponding observable event. -/
def stratEvent : Strategy × String → Event
  | (Strategy.ytdlp, u) => Event.ytdlpAttempt u
  | (Strategy.direct, u) => Event.directAttempt u

/-- `download_video` (lines 266-333) with its collaborators as oracles:
`yt` = `download_with_yt_dlp` outcome, `dd` = `download_direct` outcome,
`fetch` = `fetch_page` composed with the parsing layer (`none` models a fetch
exception), `ps` the set-iteration oracle, `uj` the `urljoin` model.
Returns the boolean result of the function together with the ordered trace of
observable events (attempts, the extraction call, the `"Failed to download
video."` diagnostic of line 287, the manual-instructions block). -/
def download_video (yt dd : String → Bool) (fetch : String → Option Html)
    (ps : List String → List String) (uj : String → String → String)
    (url : String) : Bool × List Event :=
  if is_direct_video_url url then
    if yt url then (true, [Event.ytdlpAttempt url])
    else if ([".mp4", ".webm", ".mov"] : List String).any
        (fun e => containsStr (lowerStr url) e) then
      if dd url then (true, [Event.ytdlpAttempt url, Event.directAttempt url])
      else (false, [Event.ytdlpAttempt url, Event.directAttempt url,
                    Event.failedDiagnostic])
    else (false, [Event.ytdlpAttempt url, Event.failedDiagnostic])
  else if yt url then (true, [Event.ytdlpAttempt url])
  else
    match fetch url with
    | none => (false, [Event.ytdlpAttempt url, Event.fetchAttempt url,
                       Event.manualInstructions])
    | some d =>
        if (tryCandidates yt dd (extract_video_urls ps (uj url) d)).1 then
          (true, Event.ytdlpAttempt url :: Event.fetchAttempt url :: Event.extractCall
            :: (tryCandidates yt dd (extract_video_urls ps (uj url) d)).2.map stratEvent)
        else
          (false, (Event.ytdlpAttempt url :: Event.fetchAttempt url :: Event.extractCall
            :: (tryCandidates yt dd (extract_video_urls ps (uj url) d)).2.map stratEvent)
            ++ [Event.manualInstructions])

/-- Line 355: `sys.exit(0 if success else 1)`. -/
def exit_code (b : Bool) : Nat := if b then 0 else 1

/-! ## Direct streamed download (`download_direct`, lines 181-219) -/

/-- Characters of `l` strictly before the first occurrence of `c`. -/
def takeUntil (c : Char) : List Char → List Char
  | [] => []
  | x :: rest => if x = c then [] else x :: takeUntil c rest

/-- Characters after a `://` separator, when one is present. -/
def schemeSplit : List Char → Option (List Char)
  | ':' :: '/' :: '/' :: rest => some rest
  | _ :: rest => schemeSplit rest
  | [] => none

/-- Models `urlparse(url).path`: strip fragment and query; when a scheme is
present, the path starts at the first `/` after the authority. -/
def pathOfChars (l : List Char) : List Char :=
  let noQuery := takeUntil '?' (takeUntil '#' l)
  match schemeSplit noQuery with
  | some hp => hp.dropWhile (fun c => !(c == '/'))
  | none => noQuery

/-- Models `os.path.basename`: characters after the last `/`. -/
def basenameChars (l : List Char) : List Char :=
  (l.reverse.takeWhile (fun c => !(c == '/'))).reverse

/-- Lines 187-190: filename from the URL path, falling back to `video.mp4`
when empty or without a dot. -/
def direct_filename (url : String) : String :=
  let f := basenameChars (pathOfChars url.data)
  if f.isEmpty || !(f.contains '.') then "video.mp4" else String.mk f

/-- Outcome of the streamed GET of `download_direct`: an exception before any
write (`reqError`), or a stream of chunk sizes; `failAfter = some k` models an
exception raised after `k` chunks were written to the open file. -/
inductive DirectResp where
  | reqError : DirectResp
  | stream (chunks : List Nat) (failAfter : Option Nat) : DirectResp

/-- Record a file of size `n` at `p`, replacing any previous entry. -/
def setFile (fs : List (String × Nat)) (p : String) (n : Nat) : List (String × Nat) :=
  (p, n) :: fs.filter (fun q => !(q.1 == p))

/-- `download_direct` (lines 181-219) over an explicit filesystem (a map from
path to size in bytes).  The whole body is wrapped in `try/except` returning
`False`; there is no cleanup of the output file on the exception path, so a
mid-stream failure leaves the bytes written so far on disk. -/
def download_direct (resp : String → DirectResp) (url outdir : String)
    (fs : List (String × Nat)) : Bool × List (String × Nat) :=
  let path := outdir ++ "/" ++ direct_filename url
  match resp url with
  | DirectResp.reqError => (false, fs)
  | DirectResp.stream chunks failAfter =>
      match failAfter with
      | none => (true, setFile fs path (chunks.foldl (· + ·) 0))
      | some k => (false, setFile fs path ((chunks.take k).foldl (· + ·) 0))

/-! ## Lemmas about the deduplication pass -/

theorem dedupByUrl_sublist (l : List Cand) :
    ∀ seen, (dedupByUrl seen l).Sublist l := by
  induction l with
  | nil => intro seen; simp [dedupByUrl]
  | cons c rest ih =>
    obtain ⟨t, u⟩ := c
    intro seen
    simp only [dedupByUrl]
    split
    · exact List.Sublist.cons _ (ih seen)
    · exact List.Sublist.cons₂ _ (ih (u :: seen))

theorem dedupByUrl_nodup_aux (l : List Cand) :
    ∀ seen, ((dedupByUrl seen l).map Prod.snd).Nodup
      ∧ ∀ u ∈ (dedupByUrl seen l).map Prod.snd, u ∉ seen := by
  induction l with
  | nil => intro seen; simp [dedupByUrl]
  | cons c rest ih =>
    obtain ⟨t, u⟩ := c
    intro seen
    simp only [dedupByUrl]
    split
    · exact ih seen
    · rename_i hu
      refine ⟨?_, ?_⟩
      · simp only [List.map_cons, List.nodup_cons]
        refine ⟨?_, (ih (u :: seen)).1⟩
        intro hmem
        have h2 := (ih (u :: seen)).2 u hmem
        simp at h2
      · intro x hx
        simp only [List.map_cons, List.mem_cons] at hx
        rcases hx with rfl | hx
        · exact hu
        · have h2 := (ih (u :: seen)).2 x hx
          intro hxseen
          exact h2 (List.mem_cons_of_mem _ hxseen)

theorem dedupByUrl_mem_of_find (l : List Cand) :
    ∀ seen u c, l.find? (fun x => x.2 == u) = some c → c.2 ∉ seen →
      c ∈ dedupByUrl seen l := by
  induction l with
  | nil => intro seen u c h hs; simp [List.find?] at h
  | cons p rest ih =>
    obtain ⟨t, v⟩ := p
    intro seen u c hfind hseen
    by_cases hvu : ((v : String) == u) = true
    · have heq : List.find? (fun x => x.2 == u) ((t, v) :: rest) = some (t, v) :=
        List.find?_cons_of_pos rest hvu
      rw [heq] at hfind
      injection hfind with hc
      subst hc
      simp only [dedupByUrl]
      split
      · rename_i hv; exact absurd hv hseen
      · exact List.mem_cons_self _ _
    · have heq : List.find? (fun x => x.2 == u) ((t, v) :: rest)
          = List.find? (fun x => x.2 == u) rest :=
        List.find?_cons_of_neg rest hvu
      rw [heq] at hfind
      have hcu' : c.2 = u := by
        have hcu := List.find?_some hfind
        simpa using hcu
      have hvu' : ¬ v = u := by simpa using hvu
      simp only [dedupByUrl]
      split
      · exact ih seen u c hfind hseen
      · refine List.mem_cons_of_mem _ (ih (v :: seen) u c hfind ?_)
        intro hmem
        rcases List.mem_cons.1 hmem with h | h
        · exact hvu' (by rw [← hcu', h])
        · exact hseen h

/-! ## Claim theorems -/

/-- Claim C1: for every set-iteration oracle, base-URL resolver and document,
the candidate list returned by `extract_video_urls` contains no two entries
with the same URL; it is a subsequence of the combined pre-deduplication list
(order preserved), and every URL discovered is represented by the first
occurrence (with its source-kind tag) in that combined list. -/
theorem candidate_list_dedup_first_wins (ps : List String → List String)
    (resolve : String → String) (d : Html) :
    ((extract_video_urls ps resolve d).map Prod.snd).Nodup
    ∧ (extract_video_urls ps resolve d).Sublist (rawCandidates ps resolve d)
    ∧ ∀ c ∈ rawCandidates ps resolve d,
        ∃ c' ∈ extract_video_urls ps resolve d,
          (rawCandidates ps resolve d).find? (fun x => x.2 == c.2) = some c' := by
  refine ⟨(dedupByUrl_nodup_aux _ []).1, dedupByUrl_sublist _ [], ?_⟩
  intro c hc
  have hsome : ((rawCandidates ps resolve d).find? (fun x => x.2 == c.2)).isSome := by
    rw [List.find?_isSome]
    exact ⟨c, hc, by simp⟩
  obtain ⟨c', hc'⟩ := Option.isSome_iff_exists.1 hsome
  exact ⟨c', dedupByUrl_mem_of_find _ [] c.2 c' hc' (by simp), hc'⟩

/-- Identity set-iteration oracle used in concrete witnesses. -/
def psId : List String → List String := fun l => l

/-- A document with two `<video>` elements sharing the same `src`. -/
def docDup : Html :=
  { videos := [{ src := some "u", sources := [] }, { src := some "u", sources := [] }],
    iframes := [], wistia1 := [], wistia2 := [], wistia3 := [],
    vimeo1 := [], vimeo2 := [], youtube1 := [], youtube2 := [], youtube3 := [],
    fileUrls := [] }

theorem candidate_list_dedup_first_wins_witness :
    ∃ c' ∈ extract_video_urls psId id docDup,
      (rawCandidates psId id docDup).find?
        (fun x => x.2 == (SourceType.video_element, "u").2) = some c' :=
  (candidate_list_dedup_first_wins psId id docDup).2.2
    (SourceType.video_element, "u") (by decide)

/-- Position of each source-kind tag in the extractor's fixed method order
(methods 1-6; method 1 produces both `video_element` and `video_source`). -/
def methodRank : SourceType → Nat
  | SourceType.video_element => 0
  | SourceType.video_source => 0
  | SourceType.iframe_embed => 1
  | SourceType.wistia => 2
  | SourceType.vimeo => 3
  | SourceType.youtube => 4
  | SourceType.direct_file => 5

/-- Candidates ordered by the method that discovered them. -/
def rankLE (a b : Cand) : Prop := methodRank a.1 ≤ methodRank b.1

theorem sources_candidates_rank (resolve : String → String) (os : List (Option String)) :
    ∀ c ∈ sources_candidates resolve os, methodRank c.1 = 0 := by
  induction os with
  | nil => simp [sources_candidates]
  | cons o rest ih =>
    intro c hc
    simp only [sources_candidates, List.mem_append] at hc
    rcases hc with h | h
    · rcases List.mem_map.1 h with ⟨s, _, rfl⟩; rfl
    · exact ih c h

theorem video_candidates_rank (resolve : String → String) (vs : List VideoElem) :
    ∀ c ∈ video_candidates resolve vs, methodRank c.1 = 0 := by
  induction vs with
  | nil => simp [video_candidates]
  | cons v rest ih =>
    intro c hc
    simp only [video_candidates, List.mem_append] at hc
    rcases hc with (h | h) | h
    · rcases List.mem_map.1 h with ⟨s, _, rfl⟩; rfl
    · exact sources_candidates_rank resolve v.sources c h
    · exact ih c h

theorem iframe_candidates_rank (l : List IframeElem) :
    ∀ c ∈ iframe_candidates l, methodRank c.1 = 1 := by
  induction l with
  | nil => simp [iframe_candidates]
  | cons ifr rest ih =>
    intro c hc
    simp only [iframe_candidates, List.mem_append] at hc
    rcases hc with h | h
    · rcases hmatch : pyOr ifr.src ifr.dataSrc with _ | s
      · rw [hmatch] at h; simp at h
      · rw [hmatch] at h
        by_cases hs : s = ""
        · simp [hs] at h
        · by_cases hv : isVideoHost s = true
          · simp [hs, hv] at h
            subst h; rfl
          · simp [hs, hv] at h
    · exact ih c h

theorem wistia_candidates_rank (ps : List String → List String) (d : Html) :
    ∀ c ∈ wistia_candidates ps d, methodRank c.1 = 2 := by
  intro c hc
  simp only [wistia_candidates, List.mem_append, List.mem_map] at hc
  rcases hc with (⟨i, _, rfl⟩ | ⟨i, _, rfl⟩) | ⟨i, _, rfl⟩ <;> rfl

theorem vimeo_candidates_rank (ps : List String → List String) (d : Html) :
    ∀ c ∈ vimeo_candidates ps d, methodRank c.1 = 3 := by
  intro c hc
  simp only [vimeo_candidates, List.mem_append, List.mem_map] at hc
  rcases hc with ⟨i, _, rfl⟩ | ⟨i, _, rfl⟩ <;> rfl

theorem youtube_candidates_rank (ps : List String → List String) (d : Html) :
    ∀ c ∈ youtube_candidates ps d, methodRank c.1 = 4 := by
  intro c hc
  simp only [youtube_candidates, List.mem_append, List.mem_map] at hc
  rcases hc with (⟨i, _, rfl⟩ | ⟨i, _, rfl⟩) | ⟨i, _, rfl⟩ <;> rfl

theorem direct_file_candidates_rank (ps : List String → List String) (d : Html) :
    ∀ c ∈ direct_file_candidates ps d, methodRank c.1 = 5 := by
  intro c hc
  rcases List.mem_map.1 hc with ⟨u, _, rfl⟩; rfl

theorem pairwise_of_const_rank (l : List Cand) (k : Nat)
    (h : ∀ c ∈ l, methodRank c.1 = k) : l.Pairwise rankLE := by
  induction l with
  | nil => exact List.Pairwise.nil
  | cons a t ih =>
    refine List.Pairwise.cons ?_ (ih fun c hc => h c (List.mem_cons_of_mem _ hc))
    intro b hb
    unfold rankLE
    rw [h a (List.mem_cons_self _ _), h b (List.mem_cons_of_mem _ hb)]

/-- The combined pre-deduplication list is ordered by discovery method. -/
theorem rawCandidates_pairwise (ps : List String → List String)
    (resolve : String → String) (d : Html) :
    (rawCandidates ps resolve d).Pairwise rankLE := by
  have h1 := video_candidates_rank resolve d.videos
  have h2 := iframe_candidates_rank d.iframes
  have h3 := wistia_candidates_rank ps d
  have h4 := vimeo_candidates_rank ps d
  have h5 := youtube_candidates_rank ps d
  have h6 := direct_file_candidates_rank ps d
  have p56 : (youtube_candidates ps d ++ direct_file_candidates ps d).Pairwise rankLE := by
    refine List.pairwise_append.2
      ⟨pairwise_of_const_rank _ 4 h5, pairwise_of_const_rank _ 5 h6, ?_⟩
    intro a ha b hb; unfold rankLE; rw [h5 a ha, h6 b hb]; omega
  have b56 : ∀ c ∈ youtube_candidates ps d ++ direct_file_candidates ps d,
      4 ≤ methodRank c.1 := by
    intro c hc
    rcases List.mem_append.1 hc with h | h
    · rw [h5 c h]
    · rw [h6 c h]; omega
  have p456 : (vimeo_candidates ps d ++ (youtube_candidates ps d
      ++ direct_file_candidates ps d)).Pairwise rankLE := by
    refine List.pairwise_append.2 ⟨pairwise_of_const_rank _ 3 h4, p56, ?_⟩
    intro a ha b hb; unfold rankLE; rw [h4 a ha]
    exact le_trans (by omega) (b56 b hb)
  have b456 : ∀ c ∈ vimeo_candidates ps d ++ (youtube_candidates ps d
      ++ direct_file_candidates ps d), 3 ≤ methodRank c.1 := by
    intro c hc
    rcases List.mem_append.1 hc with h | h
    · rw [h4 c h]
    · exact le_trans (by omega) (b56 c h)
  have p3456 : (wistia_candidates ps d ++ (vimeo_candidates ps d
      ++ (youtube_candidates ps d ++ direct_file_candidates ps d))).Pairwise rankLE := by
    refine List.pairwise_append.2 ⟨pairwise_of_const_rank _ 2 h3, p456, ?_⟩
    intro a ha b hb; unfold rankLE; rw [h3 a ha]
    exact le_trans (by omega) (b456 b hb)
  have b3456 : ∀ c ∈ wistia_candidates ps d ++ (vimeo_candidates ps d
      ++ (youtube_candidates ps d ++ direct_file_candidates ps d)),
      2 ≤ methodRank c.1 := by
    intro c hc
    rcases List.mem_append.1 hc with h | h
    · rw [h3 c h]
    · exact le_trans (by omega) (b456 c h)
  have p23456 : (iframe_candidates d.iframes ++ (wistia_candidates ps d
      ++ (vimeo_candidates ps d ++ (youtube_candidates ps d
      ++ direct_file_candidates ps d)))).Pairwise rankLE := by
    refine List.pairwise_append.2 ⟨pairwise_of_const_rank _ 1 h2, p3456, ?_⟩
    intro a ha b hb; unfold rankLE; rw [h2 a ha]
    exact le_trans (by omega) (b3456 b hb)
  refine List.pairwise_append.2 ⟨pairwise_of_const_rank _ 0 h1, p23456, ?_⟩
  intro a ha b hb; unfold rankLE; rw [h1 a ha]; omega

/-- The deduplicated output inherits the method ordering. -/
theorem extract_video_urls_pairwise (ps : List String → List String)
    (resolve : String → String) (d : Html) :
    (extract_video_urls ps resolve d).Pairwise rankLE :=
  List.Pairwise.sublist (dedupByUrl_sublist _ []) (rawCandidates_pairwise ps resolve d)

/-- Claim C2: the extractor applies its six discovery methods in the fixed
source order, so in the returned candidate list every `video_element`
candidate appears strictly before every `wistia` candidate; in particular, for
HTML containing both a `<video src="a.mp4">` element and a Wistia embed
marker, the `video_element` candidate precedes the `wistia` candidate. -/
theorem extractor_priority_video_before_wistia (ps : List String → List String)
    (resolve : String → String) (d : Html)
    (i j : Fin (extract_video_urls ps resolve d).length)
    (hi : ((extract_video_urls ps resolve d).get i).1 = SourceType.video_element)
    (hj : ((extract_video_urls ps resolve d).get j).1 = SourceType.wistia) :
    (i : Nat) < (j : Nat) := by
  have hp := extract_video_urls_pairwise ps resolve d
  rcases lt_trichotomy (i : Nat) (j : Nat) with h | h | h
  · exact h
  · exfalso
    have hij : i = j := Fin.ext h
    subst hij
    rw [hi] at hj
    exact absurd hj (by decide)
  · exfalso
    have hji : j < i := h
    have hr := List.pairwise_iff_get.1 hp j i hji
    rw [rankLE, hi, hj] at hr
    simp [methodRank] at hr

/-- Document with one `<video src="a.mp4">` element and one Wistia marker. -/
def docBoth : Html :=
  { videos := [{ src := some "a.mp4", sources := [] }],
    iframes := [], wistia1 := ["abc"], wistia2 := [], wistia3 := [],
    vimeo1 := [], vimeo2 := [], youtube1 := [], youtube2 := [], youtube3 := [],
    fileUrls := [] }

theorem extractor_priority_video_before_wistia_witness : (0 : Nat) < 1 :=
  extractor_priority_video_before_wistia psId id docBoth
    ⟨0, by decide⟩ ⟨1, by decide⟩ (by decide) (by decide)

/-- Claim C3: `is_direct_video_url` returns true exactly when the lowercased
input contains one of the fixed video file extensions or one of the fixed
video-hosting domain fragments; being a Lean function of the string alone, it
is pure with no side effects and no failure modes. -/
theorem classifier_contains_iff (url : String) :
    is_direct_video_url url = true ↔
      ((∃ e ∈ ([".mp4", ".webm", ".m3u8", ".mov", ".avi", ".mkv", ".flv"] : List String),
          containsStr (lowerStr url) e = true)
       ∨ (∃ s ∈ (["wistia.com", "wistia.net", "vimeo.com", "youtube.com", "youtu.be",
            "vidyard.com", "brightcove", "jwplatform", "loom.com", "sproutvideo"] : List String),
          containsStr (lowerStr url) s = true)) := by
  simp [is_direct_video_url, video_extensions, video_services, List.any_eq_true]

/-- Claim C8: the extractor is deterministic — its output is a function of the
document (together with the per-process set-iteration oracle `ps` and the
resolver), so two calls on equal inputs return identical candidate lists. -/
theorem extractor_deterministic (ps : List String → List String)
    (resolve : String → String) (d d' : Html) (h : d = d') :
    extract_video_urls ps resolve d = extract_video_urls ps resolve d' := by
  rw [h]

theorem extractor_deterministic_witness :
    extract_video_urls psId id docDup = extract_video_urls psId id docDup :=
  extractor_deterministic psId id docDup docDup rfl

/-- Claim C9: in the iframe method, `src = iframe.get("src") or
iframe.get("data-src")` evaluates by truthiness, so a present-but-empty `src`
attribute is treated as absent and `data-src` is consulted; an iframe with
`src=""` and a video-host `data-src` still yields an `iframe_embed`
candidate. -/
theorem iframe_empty_src_uses_data_src (d : String) (rest : List IframeElem) :
    iframe_candidates ({ src := some "", dataSrc := some d } :: rest)
        = iframe_candidates ({ src := none, dataSrc := some d } :: rest)
    ∧ (isVideoHost d = true →
        (SourceType.iframe_embed, d) ∈
          iframe_candidates ({ src := some "", dataSrc := some d } :: rest)) := by
  constructor
  · simp [iframe_candidates, pyOr]
  · intro h
    by_cases hd : d = ""
    · subst hd
      exact absurd h (by decide)
    · simp [iframe_candidates, pyOr, hd, h]

theorem iframe_empty_src_uses_data_src_witness :
    (SourceType.iframe_embed, "https://player.vimeo.com/video/9") ∈
      iframe_candidates
        [{ src := some "", dataSrc := some "https://player.vimeo.com/video/9" }] :=
  (iframe_empty_src_uses_data_src "https://player.vimeo.com/video/9" []).2 (by decide)

/-- Claim C4: in the per-candidate loop, once every earlier candidate has
failed, the first candidate for which some strategy succeeds terminates the
loop with success and the run is identical to one in which no later candidate
exists (no subsequent candidate is attempted); moreover a `direct` attempt is
made for a URL only when yt-dlp was attempted for it and failed and the URL
contains `.mp4` or `.webm`. -/
theorem loop_short_circuit (yt dd : String → Bool) (pre : List Cand) (c : Cand)
    (post : List Cand)
    (hpre : ∀ c' ∈ pre, candSucceeds yt dd c' = false)
    (hc : candSucceeds yt dd c = true) :
    tryCandidates yt dd (pre ++ c :: post) = tryCandidates yt dd (pre ++ [c])
    ∧ (tryCandidates yt dd (pre ++ c :: post)).1 = true
    ∧ ∀ u, (Strategy.direct, u) ∈ (tryCandidates yt dd (pre ++ c :: post)).2 →
        yt u = false ∧ hasDirectExt u = true
        ∧ (Strategy.ytdlp, u) ∈ (tryCandidates yt dd (pre ++ c :: post)).2 := by
  induction pre with
  | nil =>
    obtain ⟨t, u⟩ := c
    simp only [List.nil_append]
    by_cases hyt : yt u = true
    · refine ⟨by simp [tryCandidates, hyt], by simp [tryCandidates, hyt], ?_⟩
      intro u' hu'
      simp [tryCandidates, hyt] at hu'
    · replace hyt : yt u = false := by simpa using hyt
      have hc' : hasDirectExt u = true ∧ dd u = true := by
        simpa [candSucceeds, hyt] using hc
      refine ⟨by simp [tryCandidates, hyt, hc'.1, hc'.2],
              by simp [tryCandidates, hyt, hc'.1, hc'.2], ?_⟩
      intro u' hu'
      simp [tryCandidates, hyt, hc'.1, hc'.2] at hu'
      subst hu'
      exact ⟨hyt, hc'.1, by simp [tryCandidates, hyt, hc'.1, hc'.2]⟩
  | cons p pre' ih =>
    obtain ⟨t, v⟩ := p
    have hp := hpre (t, v) (List.mem_cons_self _ _)
    have hpre' : ∀ c' ∈ pre', candSucceeds yt dd c' = false :=
      fun c' h => hpre c' (List.mem_cons_of_mem _ h)
    have ih' := ih hpre'
    have hytv : yt v = false := by
      simp [candSucceeds, Bool.or_eq_false_iff] at hp
      exact hp.1
    have hrest : (hasDirectExt v && dd v) = false := by
      simp [candSucceeds, Bool.or_eq_false_iff] at hp
      simpa [Bool.and_eq_false_iff] using hp.2
    simp only [List.cons_append]
    by_cases hev : hasDirectExt v = true
    · have hddv : dd v = false := by
        rcases Bool.and_eq_false_iff.1 hrest with h | h
        · exact absurd h (by simp [hev])
        · exact h
      have htr : (tryCandidates yt dd ((t, v) :: (pre' ++ c :: post))).2
          = (Strategy.ytdlp, v) :: (Strategy.direct, v)
            :: (tryCandidates yt dd (pre' ++ c :: post)).2 := by
        simp [tryCandidates, hytv, hev, hddv]
      refine ⟨by simp [tryCandidates, hytv, hev, hddv, ih'.1],
              by simp [tryCandidates, hytv, hev, hddv, ih'.2.1], ?_⟩
      intro u' hu'
      rw [htr] at hu'
      rcases List.mem_cons.1 hu' with h | h
      · simp at h
      · rcases List.mem_cons.1 h with h2 | h2
        · have hu'v : u' = v := by simpa using h2
          subst hu'v
          exact ⟨hytv, hev, by rw [htr]; exact List.mem_cons_self _ _⟩
        · obtain ⟨ha, hb, hm⟩ := ih'.2.2 u' h2
          exact ⟨ha, hb, by
            rw [htr]
            exact List.mem_cons_of_mem _ (List.mem_cons_of_mem _ hm)⟩
    · have htr : (tryCandidates yt dd ((t, v) :: (pre' ++ c :: post))).2
          = (Strategy.ytdlp, v) :: (tryCandidates yt dd (pre' ++ c :: post)).2 := by
        simp [tryCandidates, hytv, hev]
      refine ⟨by simp [tryCandidates, hytv, hev, ih'.1],
              by simp [tryCandidates, hytv, hev, ih'.2.1], ?_⟩
      intro u' hu'
      rw [htr] at hu'
      rcases List.mem_cons.1 hu' with h | h
      · simp at h
      · obtain ⟨ha, hb, hm⟩ := ih'.2.2 u' h
        exact ⟨ha, hb, by rw [htr]; exact List.mem_cons_of_mem _ hm⟩

/-- Oracle succeeding exactly on the URL `http://ok`, for witnesses. -/
def ytOk : String → Bool := fun u => u == "http://ok"

/-- Always-failing yt-dlp oracle. -/
def ytF : String → Bool := fun _ => false

/-- Always-failing direct-download oracle. -/
def ddF : String → Bool := fun _ => false

/-- Fetch oracle modelling a fetch exception on every URL. -/
def fetchNone : String → Option Html := fun _ => none

/-- Trivial urljoin model for witnesses: returns the relative part. -/
def ujSnd : String → String → String := fun _ r => r

theorem loop_short_circuit_witness :
    (tryCandidates ytOk ddF
      [(SourceType.wistia, "http://w"), (SourceType.video_element, "http://ok"),
       (SourceType.youtube, "http://z")]).1 = true :=
  (loop_short_circuit ytOk ddF [(SourceType.wistia, "http://w")]
    (SourceType.video_element, "http://ok") [(SourceType.youtube, "http://z")]
    (by decide) (by decide)).2.1

/-- Claim C5: when the input is not a direct video URL, yt-dlp fails on the
page URL, and the page fetch raises, `download_video` prints the manual
instructions and returns failure; the event trace shows no extraction call and
no further download attempt after the fetch. -/
theorem fetch_failure_terminal (yt dd : String → Bool) (fetch : String → Option Html)
    (ps : List String → List String) (uj : String → String → String) (url : String)
    (h1 : is_direct_video_url url = false) (h2 : yt url = false)
    (h3 : fetch url = none) :
    download_video yt dd fetch ps uj url
      = (false, [Event.ytdlpAttempt url, Event.fetchAttempt url,
                 Event.manualInstructions]) := by
  simp [download_video, h1, h2, h3]

theorem fetch_failure_terminal_witness :
    download_video ytF ddF fetchNone psId ujSnd "http://example.com/page"
      = (false, [Event.ytdlpAttempt "http://example.com/page",
                 Event.fetchAttempt "http://example.com/page",
                 Event.manualInstructions]) :=
  fetch_failure_terminal ytF ddF fetchNone psId ujSnd "http://example.com/page"
    (by decide) rfl rfl

/-- Claim C6 counterexample: `raise_for_status` raises only for statuses in
[400, 600), so a non-2xx status such as 304 does NOT surface as a fetch
failure — `fetch_page` returns the body — refuting "any non-2xx response
status ... surfaces as a fetch failure". -/
theorem fetch_page_non2xx_counterexample :
    (fetch_page (fun _ => HttpOutcome.response 304 "stale") "http://example.com").1
      = Except.ok "stale"
    ∧ ¬ (200 ≤ 304 ∧ 304 < 300) := by
  exact ⟨rfl, by omega⟩

/-- Claim C6 (amended): `fetch_page` performs exactly one HTTP GET, with the
fixed browser-like headers and a 30-second timeout, and returns the response
body as text; a network error or a 4xx/5xx response status (the statuses for
which `raise_for_status` raises) surfaces as a fetch failure to the caller,
and no retries are attempted at this layer. -/
theorem fetch_page_single_get (http : Request → HttpOutcome) (url : String) :
    (fetch_page http url).2 = [⟨url, fetch_headers, 30⟩]
    ∧ (http ⟨url, fetch_headers, 30⟩ = HttpOutcome.netError →
        (fetch_page http url).1 = Except.error ())
    ∧ (∀ s body, http ⟨url, fetch_headers, 30⟩ = HttpOutcome.response s body →
        ((400 ≤ s ∧ s < 600) → (fetch_page http url).1 = Except.error ())
        ∧ (¬ (400 ≤ s ∧ s < 600) → (fetch_page http url).1 = Except.ok body)) := by
  refine ⟨?_, ?_, ?_⟩
  · cases hh : http ⟨url, fetch_headers, 30⟩ <;> simp [fetch_page, hh]
  · intro h; simp [fetch_page, h]
  · intro s body h
    constructor
    · intro hs; simp [fetch_page, h, hs]
    · intro hs; simp [fetch_page, h, hs]

/-- HTTP oracle answering 404 to every request, for the witness. -/
def http404 : Request → HttpOutcome := fun _ => HttpOutcome.response 404 "nf"

theorem fetch_page_single_get_witness :
    (fetch_page http404 "http://example.com").1 = Except.error () :=
  (((fetch_page_single_get http404 "http://example.com").2.2) 404 "nf" rfl).1 (by omega)

/-- Claim C7 counterexample: on the direct-video-URL branch, when both
strategies fail, `download_video` prints only the `"Failed to download
video."` diagnostic and returns failure WITHOUT printing the manual-extraction
instructions — refuting "this holds on every failure path, including the
direct-video-URL branch". -/
theorem direct_branch_no_manual_instructions :
    (download_video ytF ddF fetchNone psId ujSnd "http://host/v.mp4").1 = false
    ∧ Event.manualInstructions ∉
        (download_video ytF ddF fetchNone psId ujSnd "http://host/v.mp4").2 := by
  decide

/-- Claim C7 (amended): the process exit code is 0 exactly on Success and 1
exactly on Failure; on every failure path the run either prints the manual
extraction instructions, or — on the direct-video-URL branch only — prints
the `"Failed to download video."` diagnostic (without manual instructions). -/
theorem failure_exit_and_diagnostics (yt dd : String → Bool)
    (fetch : String → Option Html) (ps : List String → List String)
    (uj : String → String → String) (url : String) :
    (exit_code (download_video yt dd fetch ps uj url).1 = 0
      ↔ (download_video yt dd fetch ps uj url).1 = true)
    ∧ (exit_code (download_video yt dd fetch ps uj url).1 = 1
      ↔ (download_video yt dd fetch ps uj url).1 = false)
    ∧ ((download_video yt dd fetch ps uj url).1 = false →
        Event.manualInstructions ∈ (download_video yt dd fetch ps uj url).2
        ∨ (is_direct_video_url url = true
           ∧ Event.failedDiagnostic ∈ (download_video yt dd fetch ps uj url).2)) := by
  refine ⟨?_, ?_, ?_⟩
  · cases hb : (download_video yt dd fetch ps uj url).1 <;> simp [exit_code, hb]
  · cases hb : (download_video yt dd fetch ps uj url).1 <;> simp [exit_code, hb]
  · intro hf
    by_cases hd : is_direct_video_url url = true
    · right
      refine ⟨hd, ?_⟩
      simp only [download_video, hd, if_true] at hf ⊢
      by_cases hy : yt url = true
      · simp [hy] at hf
      · by_cases he : (([".mp4", ".webm", ".mov"] : List String).any
            (fun e => containsStr (lowerStr url) e)) = true
        · by_cases hdd : dd url = true
          · simp [hy, he, hdd] at hf
          · simp [hy, he, hdd]
        · simp [hy, he]
    · left
      have hd' : is_direct_video_url url = false := by simpa using hd
      simp only [download_video, hd', Bool.false_eq_true, if_false] at hf ⊢
      by_cases hy : yt url = true
      · simp [hy] at hf
      · rcases hfetch : fetch url with _ | d
        · simp [hy, hfetch]
        · by_cases hr : (tryCandidates yt dd (extract_video_urls ps (uj url) d)).1 = true
          · simp [hy, hfetch, hr] at hf
          · simp [hy, hfetch, hr]

theorem failure_exit_and_diagnostics_witness :
    Event.manualInstructions ∈
        (download_video ytF ddF fetchNone psId ujSnd "http://example.com/x").2
      ∨ (is_direct_video_url "http://example.com/x" = true
         ∧ Event.failedDiagnostic ∈
             (download_video ytF ddF fetchNone psId ujSnd "http://example.com/x").2) :=
  (failure_exit_and_diagnostics ytF ddF fetchNone psId ujSnd "http://example.com/x").2.2
    (by decide)

/-- Claim C10: when the streamed download raises after `k` chunks have been
written, `download_direct` returns failure and performs no cleanup: the
partially written output file (the bytes of the first `k` chunks) remains in
the output directory. -/
theorem direct_download_partial_file_remains (resp : String → DirectResp)
    (url outdir : String) (fs : List (String × Nat)) (chunks : List Nat) (k : Nat)
    (h : resp url = DirectResp.stream chunks (some k)) :
    (download_direct resp url outdir fs).1 = false
    ∧ List.lookup (outdir ++ "/" ++ direct_filename url)
        (download_direct resp url outdir fs).2
      = some ((chunks.take k).foldl (· + ·) 0) := by
  simp [download_direct, h, setFile, List.lookup]

/-- Response oracle that streams two chunks and raises after the first. -/
def respFail : String → DirectResp := fun _ => DirectResp.stream [8192, 4096] (some 1)

theorem direct_download_partial_file_remains_witness :
    (download_direct respFail "http://h/v/clip.mp4" "./downloads" []).1 = false
    ∧ List.lookup ("./downloads" ++ "/" ++ direct_filename "http://h/v/clip.mp4")
        (download_direct respFail "http://h/v/clip.mp4" "./downloads" []).2
      = some (([8192, 4096].take 1).foldl (· + ·) 0) :=
  direct_download_partial_file_remains respFail "http://h/v/clip.mp4" "./downloads" []
    [8192, 4096] 1 rfl

end DownloadVideo
